import Mathlib

/-
Verification of the audio-reactive visualizer core (src/App.jsx) over a
real-number shallow embedding.

Conventions of the embedding:
* JavaScript / GLSL floating-point arithmetic is modelled with ℝ.
* The GLSL literal 3.14159265359 in the kaleidoscope shader approximates π
  and is modelled as Real.pi.
* GLSL mod(x, y) = x - y * floor(x / y) is modelled as glslMod.
* GLSL atan(y, x) is modelled via Complex.arg ⟨x, y⟩.
* Uint8Array values are modelled as List ℕ (byte magnitudes 0..255).
-/

namespace Visualizer

/-! Audio analyzer (useAudioAnalyzer, App.jsx lines 43-47):
    average = sum / length, normalized = average / 255,
    boosted = normalized ^ 0.6. -/

noncomputable def boost (rawAverage : ℝ) : ℝ := (rawAverage / 255) ^ (0.6 : ℝ)

noncomputable def boosted (gamma normalized : ℝ) : ℝ := normalized ^ gamma

noncomputable def audioLevelOfFrame (frame : List ℕ) : ℝ :=
  boost ((frame.sum : ℝ) / frame.length)

/-! Oscillator model (SingleCube useFrame, App.jsx lines 148-161). -/

def basePeriod : ℝ := 60

def minPeriod : ℝ := 15

def audioPeriodReduction (audioLevel : ℝ) : ℝ := audioLevel * (basePeriod - minPeriod)

def oscillationPeriod (audioLevel : ℝ) : ℝ := basePeriod - audioPeriodReduction audioLevel

noncomputable def phase (index : ℕ) : ℝ := ((index : ℝ) / 20) * Real.pi * 2

noncomputable def speedModulation (index : ℕ) (time audioLevel : ℝ) : ℝ :=
  Real.sin ((time / oscillationPeriod audioLevel) * Real.pi * 2 + phase index)

def baseSpeed (rotationSpeed modulation : ℝ) : ℝ := rotationSpeed * modulation

def audioBoostSpeed (audioLevel rotationSpeed : ℝ) : ℝ := audioLevel * rotationSpeed * 2

noncomputable def effectiveSpeed (index : ℕ) (rotationSpeed time audioLevel : ℝ) : ℝ :=
  baseSpeed rotationSpeed (speedModulation index time audioLevel) +
    audioBoostSpeed audioLevel rotationSpeed

/-- Per-cube rotation speed assigned in RotatingCubes (App.jsx lines 250-251,261):
    startRotationSpeed 0.1 plus index * rotationSpeedIncrement 0.01. -/
def rotationSpeedBase (index : ℕ) : ℝ := 0.1 + (index : ℝ) * 0.01

/-! Band-reactive smoother (SingleCube useFrame, App.jsx lines 168-185). -/

def smoothingFactor : ℝ := 0.1

def smoothStep (current target : ℝ) : ℝ := current + (target - current) * smoothingFactor

def smoothIterate (target : ℝ) : ℕ → ℝ → ℝ
  | 0, x => x
  | k + 1, x => smoothIterate target k (smoothStep x target)

noncomputable def freqIndexOf (index L : ℕ) : ℕ := Nat.floor (((index : ℝ) / 20) * L)

def scaleGain : ℝ := 0.6

def baseRadius : ℝ := 0.015

def maxRadius : ℝ := 0.06

structure CubeState where
  rotX : ℝ
  rotY : ℝ
  rotZ : ℝ
  smoothedScale : ℝ
  smoothedRadius : ℝ

/-- One useFrame tick of SingleCube (App.jsx lines 145-186): rotation update from
    the effective speed, then, only when frequencyData is non-empty, the smoothed
    scale / tube-radius update from the object's frequency bin. -/
noncomputable def singleCubeFrame (index : ℕ) (rotationSpeed audioLevel : ℝ)
    (frequencyData : List ℕ) (time delta : ℝ) (st : CubeState) : CubeState :=
  let eff := effectiveSpeed index rotationSpeed time audioLevel
  let st1 : CubeState :=
    { st with
      rotX := st.rotX + delta * eff
      rotY := st.rotY + delta * eff
      rotZ := st.rotZ + delta * eff }
  if 0 < frequencyData.length then
    let freqIndex := freqIndexOf index frequencyData.length
    let frequency := (frequencyData.getD freqIndex 0 : ℝ) / 255
    let targetScale := 1 + frequency * scaleGain
    let targetRadius := baseRadius + frequency * (maxRadius - baseRadius)
    { st1 with
      smoothedScale := smoothStep st1.smoothedScale targetScale
      smoothedRadius := smoothStep st1.smoothedRadius targetRadius }
  else st1

/-! Kaleidoscope shader (kaleidoscopeFragmentShader, App.jsx lines 78-114) and
    the per-frame aspect update (KaleidoscopeEffect.update, lines 127-131). -/

/-- Aspect-ratio correction applied before the polar fold (lines 83-87). -/
noncomputable def aspectEqualize (aspect : ℝ) (coord : ℝ × ℝ) : ℝ × ℝ :=
  if aspect > 1 then (coord.1 * aspect, coord.2) else (coord.1, coord.2 / aspect)

/-- Reverse aspect-ratio correction applied after the fold (lines 107-111). -/
noncomputable def aspectRestore (aspect : ℝ) (coord : ℝ × ℝ) : ℝ × ℝ :=
  if aspect > 1 then (coord.1 / aspect, coord.2) else (coord.1, coord.2 * aspect)

/-- GLSL mod(x, y) = x - y * floor(x / y). -/
noncomputable def glslMod (x y : ℝ) : ℝ := x - y * (⌊x / y⌋ : ℝ)

/-- GLSL atan(y, x): the angle of the point (x, y) in (-π, π]. -/
noncomputable def atan2 (y x : ℝ) : ℝ := Complex.arg ⟨x, y⟩

/-- Lines 96-101: wrap the angle into a double wedge and mirror its second half. -/
noncomputable def wrapAngle (segmentAngle angle : ℝ) : ℝ :=
  if glslMod angle (segmentAngle * 2) > segmentAngle then
    segmentAngle * 2 - glslMod angle (segmentAngle * 2)
  else glslMod angle (segmentAngle * 2)

/-- Lines 89-104 on the aspect-equalized centered coordinate: compute radius and
    angle (segmentAngle = 2 pi / segments), fold the angle, and convert back to
    cartesian coordinates. -/
noncomputable def foldEqualized (segments : ℝ) (coord : ℝ × ℝ) : ℝ × ℝ :=
  (Real.cos (wrapAngle (2 * Real.pi / segments) (atan2 coord.2 coord.1)) *
     Real.sqrt (coord.1 ^ 2 + coord.2 ^ 2),
   Real.sin (wrapAngle (2 * Real.pi / segments) (atan2 coord.2 coord.1)) *
     Real.sqrt (coord.1 ^ 2 + coord.2 ^ 2))

/-- The whole mainUv shader function (lines 78-114). -/
noncomputable def mainUv (segments aspect : ℝ) (uv : ℝ × ℝ) : ℝ × ℝ :=
  ((aspectRestore aspect
      (foldEqualized segments (aspectEqualize aspect (uv.1 - 0.5, uv.2 - 0.5)))).1 + 0.5,
   (aspectRestore aspect
      (foldEqualized segments (aspectEqualize aspect (uv.1 - 0.5, uv.2 - 0.5)))).2 + 0.5)

/-- KaleidoscopeEffect.update (lines 127-131): aspect = width / height, with no
    special case for a zero height. -/
noncomputable def updateAspect (width height : ℝ) : ℝ := width / height

/-- Distance from the screen center measured in aspect-equalized space. -/
noncomputable def equalizedDist (aspect : ℝ) (p : ℝ × ℝ) : ℝ :=
  let c := aspectEqualize aspect (p.1 - 0.5, p.2 - 0.5)
  Real.sqrt (c.1 ^ 2 + c.2 ^ 2)

/-- Reflection of a uv point across the line through the center (0.5, 0.5) whose
    direction makes angle b with the x axis. -/
noncomputable def reflectAcrossBoundary (b : ℝ) (uv : ℝ × ℝ) : ℝ × ℝ :=
  (0.5 + ((uv.1 - 0.5) * Real.cos (2 * b) + (uv.2 - 0.5) * Real.sin (2 * b)),
   0.5 + ((uv.1 - 0.5) * Real.sin (2 * b) - (uv.2 - 0.5) * Real.cos (2 * b)))

/-! Theorems. -/

/-- C5: for every reactivity scalar r in [0, 1] the oscillation period
    basePeriod - r * (basePeriod - minPeriod) lies in [minPeriod, basePeriod] and is
    strictly positive (so time / period never divides by zero), and it equals
    basePeriod at r = 0 and minPeriod at r = 1. -/
theorem oscillationPeriod_bounds (r : ℝ) (h0 : 0 ≤ r) (h1 : r ≤ 1) :
    (minPeriod ≤ oscillationPeriod r ∧ oscillationPeriod r ≤ basePeriod ∧
        0 < oscillationPeriod r) ∧
      oscillationPeriod 0 = basePeriod ∧ oscillationPeriod 1 = minPeriod := by
  unfold oscillationPeriod audioPeriodReduction basePeriod minPeriod
  refine ⟨⟨by nlinarith, by nlinarith, by nlinarith⟩, by ring, by ring⟩

theorem oscillationPeriod_bounds_witness :
    (minPeriod ≤ oscillationPeriod 0.5 ∧ oscillationPeriod 0.5 ≤ basePeriod ∧
        0 < oscillationPeriod 0.5) ∧
      oscillationPeriod 0 = basePeriod ∧ oscillationPeriod 1 = minPeriod :=
  oscillationPeriod_bounds 0.5 (by norm_num) (by norm_num)

/-- C3: the one-pole smoother x += (T - x) * alpha with alpha = 0.1 reaches
    exactly T - (T - initial) * (1 - alpha) ^ K after K frames of a constant
    target T, and each single update stays between the previous value and the
    current (non-negative) target: it never overshoots. -/
theorem smoother_closed_form_no_overshoot :
    (∀ (T x0 : ℝ) (K : ℕ),
        smoothIterate T K x0 = T - (T - x0) * (1 - smoothingFactor) ^ K) ∧
      ∀ x t : ℝ, 0 ≤ t → min x t ≤ smoothStep x t ∧ smoothStep x t ≤ max x t := by
  constructor
  · intro T x0 K
    induction K generalizing x0 with
    | zero => simp [smoothIterate]
    | succ k ih =>
      rw [smoothIterate, ih]
      unfold smoothStep smoothingFactor
      ring
  · intro x t ht
    unfold smoothStep smoothingFactor
    rcases le_total x t with h | h
    · rw [min_eq_left h, max_eq_right h]
      constructor <;> nlinarith
    · rw [min_eq_right h, max_eq_left h]
      constructor <;> nlinarith

theorem smoother_closed_form_no_overshoot_witness :
    min 2 7 ≤ smoothStep 2 7 ∧ smoothStep 2 7 ≤ max 2 7 :=
  smoother_closed_form_no_overshoot.2 2 7 (by norm_num)

/-- Helper: the loudness boost of a zero average is zero. -/
theorem boost_zero : boost 0 = 0 := by
  unfold boost
  rw [zero_div, Real.zero_rpow (by norm_num)]

/-- C4: boost(raw) = (raw/255)^0.6 maps [0, 255] into [0, 1], sends 0 to 0 and
    255 to 1, is monotone non-decreasing, and for every gamma in (0, 1) the
    boosted value normalized ^ gamma is at least normalized on (0, 1). -/
theorem boost_properties :
    (∀ rawAverage : ℝ, 0 ≤ rawAverage → rawAverage ≤ 255 →
        0 ≤ boost rawAverage ∧ boost rawAverage ≤ 1) ∧
      boost 0 = 0 ∧ boost 255 = 1 ∧
      (∀ a b : ℝ, 0 ≤ a → a ≤ b → b ≤ 255 → boost a ≤ boost b) ∧
      ∀ gamma normalized : ℝ, 0 < gamma → gamma < 1 →
        0 < normalized → normalized < 1 → normalized ≤ boosted gamma normalized := by
  refine ⟨?_, ?_, ?_, ?_, ?_⟩
  · intro raw h0 h255
    unfold boost
    constructor
    · exact Real.rpow_nonneg (by positivity) _
    · exact Real.rpow_le_one (by positivity) (by linarith) (by norm_num)
  · exact boost_zero
  · unfold boost
    norm_num
  · intro a b ha hab _
    unfold boost
    exact Real.rpow_le_rpow (by positivity) (by linarith) (by norm_num)
  · intro gamma normalized hg0 hg1 hn0 hn1
    unfold boosted
    have h := Real.rpow_le_rpow_of_exponent_ge hn0 (le_of_lt hn1) (le_of_lt hg1)
    rwa [Real.rpow_one] at h

theorem boost_properties_witness :
    (0 ≤ boost 100 ∧ boost 100 ≤ 1) ∧ boost 10 ≤ boost 200 :=
  ⟨boost_properties.1 100 (by norm_num) (by norm_num),
   boost_properties.2.2.2.1 10 200 (by norm_num) (by norm_num) (by norm_num)⟩

/-- C6: for an object index below the object count 20 and a non-empty spectrum of
    length L, the bin index floor((index / 20) * L) is at most L - 1 (and, being a
    natural number, at least 0), so the spectrum access stays in bounds. -/
theorem freqIndexOf_in_bounds (index L : ℕ) (hi : index < 20) (hL : 0 < L) :
    freqIndexOf index L < L ∧ freqIndexOf index L ≤ L - 1 := by
  have hlt : freqIndexOf index L < L := by
    unfold freqIndexOf
    have hx : (0 : ℝ) ≤ ((index : ℝ) / 20) * L := by positivity
    rw [Nat.floor_lt hx]
    have hfrac : ((index : ℝ) / 20) < 1 := by
      rw [div_lt_one (by norm_num)]
      exact_mod_cast hi
    calc ((index : ℝ) / 20) * L < 1 * (L : ℝ) :=
          mul_lt_mul_of_pos_right hfrac (by exact_mod_cast hL)
      _ = (L : ℝ) := one_mul _
  exact ⟨hlt, by omega⟩

theorem freqIndexOf_in_bounds_witness :
    freqIndexOf 10 64 < 64 ∧ freqIndexOf 10 64 ≤ 63 :=
  freqIndexOf_in_bounds 10 64 (by norm_num) (by norm_num)

/-- C7: a frame update receiving an empty spectrum leaves the smoothed scale and
    the smoothed tube radius exactly unchanged: it holds the last known state. -/
theorem empty_spectrum_holds_state (index : ℕ) (rotationSpeed audioLevel time delta : ℝ)
    (st : CubeState) :
    (singleCubeFrame index rotationSpeed audioLevel [] time delta st).smoothedScale =
        st.smoothedScale ∧
      (singleCubeFrame index rotationSpeed audioLevel [] time delta st).smoothedRadius =
        st.smoothedRadius := by
  unfold singleCubeFrame
  simp

/-- C8: the audio-boost term audioLevel * rotationSpeedBase * 2 is non-negative
    for every object index and every reactivity scalar in [0, 1] (audio never
    reverses the spin), while the oscillator term rotationSpeed * speedModulation
    is negative at a concrete input (index 0, time 45, zero audio). -/
theorem audioBoost_nonneg_oscillator_signed :
    (∀ (index : ℕ) (r : ℝ), 0 ≤ r → r ≤ 1 →
        0 ≤ audioBoostSpeed r (rotationSpeedBase index)) ∧
      baseSpeed (rotationSpeedBase 0) (speedModulation 0 45 0) < 0 := by
  constructor
  · intro index r hr0 _
    unfold audioBoostSpeed rotationSpeedBase
    have hbase : (0 : ℝ) ≤ 0.1 + (index : ℝ) * 0.01 := by positivity
    nlinarith
  · have hper : oscillationPeriod 0 = 60 := by
      unfold oscillationPeriod audioPeriodReduction basePeriod minPeriod
      ring
    have hphase : phase 0 = 0 := by
      unfold phase
      norm_num
    have hmod : speedModulation 0 45 0 = -1 := by
      unfold speedModulation
      rw [hper, hphase, add_zero]
      have harg : (45 / 60 : ℝ) * Real.pi * 2 = Real.pi / 2 + Real.pi := by ring
      rw [harg, Real.sin_add_pi, Real.sin_pi_div_two]
    rw [hmod]
    unfold baseSpeed rotationSpeedBase
    norm_num

theorem audioBoost_nonneg_oscillator_signed_witness :
    0 ≤ audioBoostSpeed 1 (rotationSpeedBase 3) :=
  audioBoost_nonneg_oscillator_signed.1 3 1 (by norm_num) (by norm_num)

/-- C9: with an all-zero 64-bin spectrum frame the loudness is boost(0) = 0, the
    period is 60, at time 15 and index 0 the oscillation term is sin(pi/2) = 1,
    the audio boost is 0, the effective speed equals rotationSpeedBase, and the
    frame adds rotationSpeedBase * delta to all three rotation axes. -/
theorem end_to_end_zero_spectrum (delta : ℝ) (st : CubeState) :
    audioLevelOfFrame (List.replicate 64 0) = 0 ∧
      oscillationPeriod (audioLevelOfFrame (List.replicate 64 0)) = 60 ∧
      speedModulation 0 15 (audioLevelOfFrame (List.replicate 64 0)) = 1 ∧
      audioBoostSpeed (audioLevelOfFrame (List.replicate 64 0)) (rotationSpeedBase 0) = 0 ∧
      effectiveSpeed 0 (rotationSpeedBase 0) 15 (audioLevelOfFrame (List.replicate 64 0)) =
        rotationSpeedBase 0 ∧
      (singleCubeFrame 0 (rotationSpeedBase 0) (audioLevelOfFrame (List.replicate 64 0))
          (List.replicate 64 0) 15 delta st).rotX = st.rotX + rotationSpeedBase 0 * delta ∧
      (singleCubeFrame 0 (rotationSpeedBase 0) (audioLevelOfFrame (List.replicate 64 0))
          (List.replicate 64 0) 15 delta st).rotY = st.rotY + rotationSpeedBase 0 * delta ∧
      (singleCubeFrame 0 (rotationSpeedBase 0) (audioLevelOfFrame (List.replicate 64 0))
          (List.replicate 64 0) 15 delta st).rotZ = st.rotZ + rotationSpeedBase 0 * delta := by
  have hlvl : audioLevelOfFrame (List.replicate 64 0) = 0 := by
    unfold audioLevelOfFrame
    simp [boost_zero]
  have hper : oscillationPeriod 0 = 60 := by
    unfold oscillationPeriod audioPeriodReduction basePeriod minPeriod
    ring
  have hphase : phase 0 = 0 := by
    unfold phase
    norm_num
  have hmod : speedModulation 0 15 0 = 1 := by
    unfold speedModulation
    rw [hper, hphase, add_zero]
    have harg : (15 / 60 : ℝ) * Real.pi * 2 = Real.pi / 2 := by ring
    rw [harg, Real.sin_pi_div_two]
  have hboost : audioBoostSpeed 0 (rotationSpeedBase 0) = 0 := by
    unfold audioBoostSpeed
    ring
  have heff : effectiveSpeed 0 (rotationSpeedBase 0) 15 0 = rotationSpeedBase 0 := by
    unfold effectiveSpeed baseSpeed
    rw [hmod, hboost]
    ring
  have hrot :
      (singleCubeFrame 0 (rotationSpeedBase 0) 0 (List.replicate 64 0) 15 delta st).rotX =
          st.rotX + delta * effectiveSpeed 0 (rotationSpeedBase 0) 15 0 ∧
        (singleCubeFrame 0 (rotationSpeedBase 0) 0 (List.replicate 64 0) 15 delta st).rotY =
          st.rotY + delta * effectiveSpeed 0 (rotationSpeedBase 0) 15 0 ∧
        (singleCubeFrame 0 (rotationSpeedBase 0) 0 (List.replicate 64 0) 15 delta st).rotZ =
          st.rotZ + delta * effectiveSpeed 0 (rotationSpeedBase 0) 15 0 := by
    unfold singleCubeFrame
    norm_num
  refine ⟨hlvl, ?_, ?_, ?_, ?_, ?_, ?_, ?_⟩
  · rw [hlvl]
    exact hper
  · rw [hlvl]
    exact hmod
  · rw [hlvl]
    exact hboost
  · rw [hlvl]
    exact heff
  · rw [hlvl, hrot.1, heff]
    ring
  · rw [hlvl, hrot.2.1, heff]
    ring
  · rw [hlvl, hrot.2.2, heff]
    ring

/-! Helper lemmas about glslMod, wrapAngle and polar angles. -/

theorem glslMod_eq_fract (x y : ℝ) (hy : y ≠ 0) : glslMod x y = y * Int.fract (x / y) := by
  unfold glslMod
  rw [Int.fract, mul_sub, mul_div_cancel₀ x hy]

theorem glslMod_nonneg (x y : ℝ) (hy : 0 < y) : 0 ≤ glslMod x y := by
  rw [glslMod_eq_fract x y hy.ne']
  exact mul_nonneg hy.le (Int.fract_nonneg _)

theorem glslMod_lt (x y : ℝ) (hy : 0 < y) : glslMod x y < y := by
  rw [glslMod_eq_fract x y hy.ne']
  calc y * Int.fract (x / y) < y * 1 := mul_lt_mul_of_pos_left (Int.fract_lt_one _) hy
    _ = y := mul_one y

theorem glslMod_add_int_mul (x y : ℝ) (m : ℤ) (hy : y ≠ 0) :
    glslMod (x + (m : ℝ) * y) y = glslMod x y := by
  rw [glslMod_eq_fract _ y hy, glslMod_eq_fract x y hy]
  congr 1
  rw [add_div, mul_div_assoc, div_self hy, mul_one, Int.fract_add_int]

theorem glslMod_neg_eq (x y : ℝ) (hy : y ≠ 0) :
    glslMod (-x) y = if glslMod x y = 0 then 0 else y - glslMod x y := by
  rw [glslMod_eq_fract _ y hy, glslMod_eq_fract x y hy, neg_div]
  by_cases h : Int.fract (x / y) = 0
  · rw [if_pos (by rw [h, mul_zero]), Int.fract_neg_eq_zero.2 h, mul_zero]
  · rw [if_neg (mul_ne_zero hy h), Int.fract_neg h]
    ring

theorem wrapAngle_add_int_mul (s θ : ℝ) (m : ℤ) (hs : 0 < s) :
    wrapAngle s (θ + (m : ℝ) * (s * 2)) = wrapAngle s θ := by
  unfold wrapAngle
  rw [glslMod_add_int_mul θ (s * 2) m (by nlinarith)]

theorem wrapAngle_neg (s θ : ℝ) (hs : 0 < s) : wrapAngle s (-θ) = wrapAngle s θ := by
  have hy : (0 : ℝ) < s * 2 := by nlinarith
  unfold wrapAngle
  rw [glslMod_neg_eq θ (s * 2) hy.ne']
  by_cases h0 : glslMod θ (s * 2) = 0
  · rw [if_pos h0, h0]
  · rw [if_neg h0]
    have hm0 : 0 ≤ glslMod θ (s * 2) := glslMod_nonneg θ (s * 2) hy
    have hm2 : glslMod θ (s * 2) < s * 2 := glslMod_lt θ (s * 2) hy
    rcases lt_trichotomy (glslMod θ (s * 2)) s with h | h | h
    · rw [if_pos (by linarith), if_neg (by linarith)]
      ring
    · rw [if_neg (by linarith), if_neg (by linarith), h]
      ring
    · rw [if_neg (by linarith), if_pos h]

/-- The argument of the point (R cos psi, R sin psi) with R positive equals psi up
    to an integer multiple of 2 pi. -/
theorem arg_polar (R ψ : ℝ) (hR : 0 < R) :
    ∃ m : ℤ, Complex.arg ⟨R * Real.cos ψ, R * Real.sin ψ⟩ = ψ + (m : ℝ) * (2 * Real.pi) := by
  have hmem : ψ - toIocDiv Real.two_pi_pos (-Real.pi) ψ • (2 * Real.pi) ∈
      Set.Ioc (-Real.pi) (-Real.pi + 2 * Real.pi) :=
    sub_toIocDiv_zsmul_mem_Ioc Real.two_pi_pos (-Real.pi) ψ
  set n := toIocDiv Real.two_pi_pos (-Real.pi) ψ with hn
  set ψ0 := ψ - n • (2 * Real.pi) with hψ0
  have hmem2 : ψ0 ∈ Set.Ioc (-Real.pi) Real.pi := by
    have harith : -Real.pi + 2 * Real.pi = Real.pi := by ring
    rwa [harith] at hmem
  have hψ : ψ = ψ0 + (n : ℝ) * (2 * Real.pi) := by
    rw [hψ0, zsmul_eq_mul]
    ring
  have hcos : Real.cos ψ = Real.cos ψ0 := by
    rw [hψ]
    exact Real.cos_add_int_mul_two_pi ψ0 n
  have hsin : Real.sin ψ = Real.sin ψ0 := by
    rw [hψ]
    exact Real.sin_add_int_mul_two_pi ψ0 n
  refine ⟨-n, ?_⟩
  have hz : (⟨R * Real.cos ψ, R * Real.sin ψ⟩ : ℂ) =
      (R : ℂ) * (Complex.cos ψ0 + Complex.sin ψ0 * Complex.I) := by
    apply Complex.ext
    · simp [Complex.mul_re, Complex.cos_ofReal_re, Complex.cos_ofReal_im,
        Complex.sin_ofReal_re, Complex.sin_ofReal_im, hcos, hsin]
    · simp [Complex.mul_im, Complex.cos_ofReal_re, Complex.cos_ofReal_im,
        Complex.sin_ofReal_re, Complex.sin_ofReal_im, hcos, hsin]
  rw [hz, Complex.arg_mul_cos_add_sin_mul_I hR hmem2, hψ]
  push_cast
  ring

theorem aspectEqualize_aspectRestore (aspect : ℝ) (c : ℝ × ℝ) (ha : aspect ≠ 0) :
    aspectEqualize aspect (aspectRestore aspect c) = c := by
  unfold aspectEqualize aspectRestore
  split_ifs with h
  · show (c.1 / aspect * aspect, c.2) = c
    rw [div_mul_cancel₀ c.1 ha]
  · show (c.1, c.2 * aspect / aspect) = c
    rw [mul_div_cancel_right₀ c.2 ha]

theorem foldEqualized_radius (segments : ℝ) (c : ℝ × ℝ) :
    Real.sqrt ((foldEqualized segments c).1 ^ 2 + (foldEqualized segments c).2 ^ 2) =
      Real.sqrt (c.1 ^ 2 + c.2 ^ 2) := by
  have hnn : (0 : ℝ) ≤ c.1 ^ 2 + c.2 ^ 2 := by positivity
  unfold foldEqualized
  dsimp only
  congr 1
  linear_combination (Real.sqrt (c.1 ^ 2 + c.2 ^ 2)) ^ 2 *
      Real.sin_sq_add_cos_sq (wrapAngle (2 * Real.pi / segments) (atan2 c.2 c.1)) +
    Real.sq_sqrt hnn

theorem mainUv_one (segments : ℝ) (uv : ℝ × ℝ) :
    mainUv segments 1 uv =
      ((foldEqualized segments (uv.1 - 0.5, uv.2 - 0.5)).1 + 0.5,
       (foldEqualized segments (uv.1 - 0.5, uv.2 - 0.5)).2 + 0.5) := by
  unfold mainUv aspectEqualize aspectRestore
  norm_num

/-- Reflecting the equalized coordinate across a wedge boundary (a multiple of
    pi / 6, twice which is a multiple of pi / 3) does not change the folded
    coordinate for 12 segments. -/
theorem foldEqualized_reflect (x y : ℝ) (k : ℤ) :
    foldEqualized 12
      (x * Real.cos ((k : ℝ) * (Real.pi / 3)) + y * Real.sin ((k : ℝ) * (Real.pi / 3)),
       x * Real.sin ((k : ℝ) * (Real.pi / 3)) - y * Real.cos ((k : ℝ) * (Real.pi / 3))) =
      foldEqualized 12 (x, y) := by
  by_cases hc : x = 0 ∧ y = 0
  · rw [hc.1, hc.2]
    norm_num
  · set β := (k : ℝ) * (Real.pi / 3) with hβ
    set z : ℂ := ⟨x, y⟩ with hzdef
    have hz : z ≠ 0 := by
      intro h
      apply hc
      constructor
      · simpa [hzdef] using congrArg Complex.re h
      · simpa [hzdef] using congrArg Complex.im h
    have hR : 0 < Complex.abs z := Complex.abs.pos hz
    have hcos1 : Complex.abs z * Real.cos (Complex.arg z) = x := by
      rw [Complex.cos_arg hz]
      have hre : z.re = x := rfl
      rw [hre, mul_comm, div_mul_cancel₀ x hR.ne']
    have hsin1 : Complex.abs z * Real.sin (Complex.arg z) = y := by
      rw [Complex.sin_arg]
      have him : z.im = y := rfl
      rw [him, mul_comm, div_mul_cancel₀ y hR.ne']
    have hX : x * Real.cos β + y * Real.sin β =
        Complex.abs z * Real.cos (β - Complex.arg z) := by
      rw [Real.cos_sub, ← hcos1, ← hsin1]
      ring
    have hY : x * Real.sin β - y * Real.cos β =
        Complex.abs z * Real.sin (β - Complex.arg z) := by
      rw [Real.sin_sub, ← hcos1, ← hsin1]
      ring
    rw [hX, hY]
    obtain ⟨m, hm⟩ := arg_polar (Complex.abs z) (β - Complex.arg z) hR
    have hane : atan2 (Complex.abs z * Real.sin (β - Complex.arg z))
        (Complex.abs z * Real.cos (β - Complex.arg z)) =
        (β - Complex.arg z) + (m : ℝ) * (2 * Real.pi) := hm
    have hatan : atan2 y x = Complex.arg z := rfl
    have hs : (0 : ℝ) < 2 * Real.pi / 12 := by positivity
    have hwrap : wrapAngle (2 * Real.pi / 12)
        ((β - Complex.arg z) + (m : ℝ) * (2 * Real.pi)) =
        wrapAngle (2 * Real.pi / 12) (Complex.arg z) := by
      have hre : (β - Complex.arg z) + (m : ℝ) * (2 * Real.pi) =
          (-Complex.arg z) + ((k + 6 * m : ℤ) : ℝ) * ((2 * Real.pi / 12) * 2) := by
        rw [hβ]
        push_cast
        ring
      rw [hre, wrapAngle_add_int_mul _ _ _ hs, wrapAngle_neg _ _ hs]
    have hrad : Real.sqrt ((Complex.abs z * Real.cos (β - Complex.arg z)) ^ 2 +
        (Complex.abs z * Real.sin (β - Complex.arg z)) ^ 2) =
        Real.sqrt (x ^ 2 + y ^ 2) := by
      congr 1
      rw [← hcos1, ← hsin1]
      linear_combination (Complex.abs z) ^ 2 * Real.sin_sq_add_cos_sq (β - Complex.arg z) -
        (Complex.abs z) ^ 2 * Real.sin_sq_add_cos_sq (Complex.arg z)
    unfold foldEqualized
    dsimp only
    rw [hane, hatan, hwrap, hrad]

/-- C2: with aspect = 1 and segments = 12, folding uv and folding the mirror
    image of uv across any wedge boundary (an integer multiple of 2 pi / 12 about
    the center) give the same output; and for every aspect > 0 and segments >= 2
    the center (0.5, 0.5) maps exactly to (0.5, 0.5). -/
theorem kaleidoscope_mirror_and_center :
    (∀ (uv : ℝ × ℝ) (k : ℤ),
        mainUv 12 1 (reflectAcrossBoundary ((k : ℝ) * (2 * Real.pi / 12)) uv) =
          mainUv 12 1 uv) ∧
      ∀ aspect segments : ℝ, 0 < aspect → 2 ≤ segments →
        mainUv segments aspect (0.5, 0.5) = (0.5, 0.5) := by
  constructor
  · intro uv k
    rw [mainUv_one, mainUv_one]
    unfold reflectAcrossBoundary
    dsimp only
    have h05 : ∀ t : ℝ, 0.5 + t - 0.5 = t := fun t => by ring
    rw [h05, h05]
    have hb : 2 * ((k : ℝ) * (2 * Real.pi / 12)) = (k : ℝ) * (Real.pi / 3) := by
      ring
    rw [hb, foldEqualized_reflect]
  · intro aspect segments ha hseg
    unfold mainUv aspectEqualize aspectRestore foldEqualized
    split_ifs <;> norm_num

theorem kaleidoscope_mirror_and_center_witness :
    mainUv 2 1 (0.5, 0.5) = (0.5, 0.5) :=
  kaleidoscope_mirror_and_center.2 1 2 (by norm_num) (by norm_num)

/-- C10: the fold never changes the aspect-equalized distance from the center:
    for every uv, every aspect > 0 and every segments >= 2, the output of mainUv
    lies on the same aspect-corrected circle around (0.5, 0.5) as the input. -/
theorem fold_preserves_equalized_radius (uv : ℝ × ℝ) (aspect segments : ℝ)
    (ha : 0 < aspect) (hseg : 2 ≤ segments) :
    equalizedDist aspect (mainUv segments aspect uv) = equalizedDist aspect uv := by
  unfold equalizedDist mainUv
  dsimp only
  have h05 : ∀ t : ℝ, t + 0.5 - 0.5 = t := fun t => by ring
  rw [h05, h05, Prod.mk.eta, aspectEqualize_aspectRestore aspect _ ha.ne']
  exact foldEqualized_radius segments _

theorem fold_preserves_equalized_radius_witness :
    equalizedDist 2 (mainUv 12 2 (0.5, 0.5)) = equalizedDist 2 (0.5, 0.5) :=
  fold_preserves_equalized_radius (0.5, 0.5) 2 12 (by norm_num) (by norm_num)

/-- C1: the update step computes aspect = width / height with no zero-height
    guard, so for a zero-height viewport the fold does not behave as if
    aspect = 1: at uv = (0.5, 0.75) with segments = 2 the two outputs differ
    (real-valued model of the unguarded division). -/
theorem degenerate_viewport_no_fallback :
    updateAspect 800 0 ≠ 1 ∧
      mainUv 2 (updateAspect 800 0) (0.5, 0.75) ≠ mainUv 2 1 (0.5, 0.75) := by
  have hup : updateAspect 800 0 = 0 := by
    unfold updateAspect
    norm_num
  have hL : mainUv 2 0 (0.5, 0.75) = (0.5, 0.5) := by
    unfold mainUv aspectEqualize aspectRestore foldEqualized
    norm_num
  have hR : mainUv 2 1 (0.5, 0.75) = (0.5, 0.75) := by
    rw [mainUv_one]
    dsimp only
    have harg : atan2 (0.75 - 0.5) (0.5 - 0.5) = Real.pi / 2 := by
      unfold atan2
      have hmk : (⟨0.5 - 0.5, 0.75 - 0.5⟩ : ℂ) = ((0.25 : ℝ) : ℂ) * Complex.I := by
        apply Complex.ext <;> norm_num
      rw [hmk, Complex.arg_real_mul _ (by norm_num), Complex.arg_I]
    have hwrap : wrapAngle (2 * Real.pi / 2) (Real.pi / 2) = Real.pi / 2 := by
      have hmod : glslMod (Real.pi / 2) ((2 * Real.pi / 2) * 2) = Real.pi / 2 := by
        have hs2 : (2 * Real.pi / 2) * 2 = 2 * Real.pi := by ring
        rw [hs2, glslMod_eq_fract _ _ Real.two_pi_pos.ne']
        have hq : Real.pi / 2 / (2 * Real.pi) = (1 : ℝ) / 4 := by
          rw [div_div, div_eq_div_iff (by positivity) (by norm_num)]
          ring
        rw [hq, Int.fract_eq_self.2 (by norm_num)]
        ring
      unfold wrapAngle
      rw [hmod]
      rw [if_neg (by linarith [Real.pi_pos])]
    have hfold : foldEqualized 2 (0.5 - 0.5, 0.75 - 0.5) = (0, 0.25) := by
      unfold foldEqualized
      dsimp only
      rw [harg, hwrap, Real.cos_pi_div_two, Real.sin_pi_div_two]
      have hsq : ((0.5 : ℝ) - 0.5) ^ 2 + ((0.75 : ℝ) - 0.5) ^ 2 = (0.25 : ℝ) ^ 2 := by
        norm_num
      rw [hsq, Real.sqrt_sq (by norm_num)]
      norm_num
    rw [hfold]
    norm_num
  constructor
  · rw [hup]
    norm_num
  · rw [hup, hL, hR]
    intro h
    have h2 := congrArg Prod.snd h
    norm_num at h2

end Visualizer
